import Mathlib

/-!
A Lean model of the Labrador Sea oxygen CMIP6 model-score notebook
(cmip6_score.ipynb, with the local variants as secondary sources).
Times, depths and data values are embedded as rationals; missing cells
(NaN) as Option; the floating-point square root inside the
standard-deviation score as Real.sqrt.  Rounding follows numpy round
(half to even).
-/

set_option maxRecDepth 4000

namespace LabSea

/-- Round half to even, as numpy round applied to a pandas Series. -/
def rhe (q : ℚ) : ℤ :=
  if q - ⌊q⌋ < 1/2 then ⌊q⌋
  else if 1/2 < q - ⌊q⌋ then ⌊q⌋ + 1
  else if ⌊q⌋ % 2 = 0 then ⌊q⌋ else ⌊q⌋ + 1

/-- Arithmetic mean of a column, as pandas mean (junk value 0 on empty). -/
def mean (xs : List ℚ) : ℚ := xs.sum / xs.length

/-- Column with its mean removed (the anomaly step df - df.mean()). -/
def centered (xs : List ℚ) : List ℚ := xs.map (fun x => x - mean xs)

/-- Centered cross-product sum: the unnormalised numerator of a Pearson
correlation and of a sample covariance (the common normalisation cancels
everywhere it is used below). -/
def sProd (xs ys : List ℚ) : ℚ :=
  (List.zipWith (fun a b => a * b) (centered xs) (centered ys)).sum

/-- Square of the Pearson correlation of two equal-length columns, kept in
rational arithmetic: corr = sProd / sqrt(sProd xx * sProd yy), hence
corr^2 = sProd^2 / (sProd xx * sProd yy).  Only corr^2 enters scr_corr. -/
def corrSq (xs ys : List ℚ) : ℚ :=
  (sProd xs ys) ^ 2 / (sProd xs xs * sProd ys ys)

/-- Correlation score: scr_corr = (20*lsw_corr**2/0.81).round(), then
scr_corr[scr_corr < 0] = 0.  There is no upper clamp in the code. -/
def scr_corr (m o : List ℚ) : ℤ :=
  let s := rhe (20 * corrSq m o / (81/100))
  if s < 0 then 0 else s

/-- Row of the merged LSW-inventory table: (time, Obs value, model value). -/
abbrev Row3 := ℚ × ℚ × ℚ

/-- Observation column accessor. -/
def obsOf (r : Row3) : ℚ := r.2.1

/-- Model column accessor. -/
def modOf (r : Row3) : ℚ := r.2.2

/-- Label slice df[a:b] on a time-sorted frame: both endpoints inclusive. -/
def window (a b : ℚ) (rows : List Row3) : List Row3 :=
  rows.filter (fun r => decide (a ≤ r.1) && decide (r.1 ≤ b))

/-- Maximum of a column (junk value 0 on empty, where pandas yields NaN). -/
def listMax : List ℚ → ℚ
  | [] => 0
  | x :: xs => xs.foldl max x

/-- Minimum of a column (junk value 0 on empty, where pandas yields NaN). -/
def listMin : List ℚ → ℚ
  | [] => 0
  | x :: xs => xs.foldl min x

/-- lsw_max for one column: max over the first window minus min over the
second window (windows 1990..1995 and 2002..2007 in the main notebook,
kept as parameters here since the local variant uses 2004..2009). -/
def lsw_max (col : Row3 → ℚ) (w1a w1b w2a w2b : ℚ) (rows : List Row3) : ℚ :=
  listMax ((window w1a w1b rows).map col) - listMin ((window w2a w2b rows).map col)

/-- Extremum-anomaly-ratio score: 20*(m/o), replaced by the inverse ratio
when m > o, rounded, and clamped below at 0. -/
def scr_max (w1a w1b w2a w2b : ℚ) (rows : List Row3) : ℤ :=
  let m := lsw_max modOf w1a w1b w2a w2b rows
  let o := lsw_max obsOf w1a w1b w2a w2b rows
  let s := rhe (if o < m then 20 * (o / m) else 20 * (m / o))
  if s < 0 then 0 else s

/-- Sample variance of a column, pandas ddof = 1. -/
def svar (xs : List ℚ) : ℚ := sProd xs xs / ((xs.length : ℚ) - 1)

/-- Sample standard deviation (pandas .std()), a real number. -/
noncomputable def bot_std (xs : List ℚ) : ℝ := Real.sqrt ((svar xs : ℚ) : ℝ)

/-- Round half to even on the reals (numpy round on float data). -/
noncomputable def rheR (x : ℝ) : ℤ :=
  if x - ⌊x⌋ < 1/2 then ⌊x⌋
  else if 1/2 < x - ⌊x⌋ then ⌊x⌋ + 1
  else if ⌊x⌋ % 2 = 0 then ⌊x⌋ else ⌊x⌋ + 1

/-- Variability-ratio score (lower layer): 20*(std_m/std_o), replaced by the
inverse ratio when std_m > std_o, then rounded.  No clamp in the code. -/
noncomputable def scr_std (m o : List ℚ) : ℤ :=
  rheR (if bot_std o < bot_std m
        then 20 * (bot_std o / bot_std m)
        else 20 * (bot_std m / bot_std o))

/-- Row of the mean-profile table: (depth, Obs value, model value). -/
abbrev PRow := ℚ × ℚ × ℚ

/-- Profile bias at one depth: model minus observation. -/
def o2_diff (r : PRow) : ℚ := r.2.2 - r.2.1

/-- Membership test of the upper profile layer: o2_diff.index < 2200. -/
def inProf1 (r : PRow) : Bool := decide (r.1 < 2200)

/-- Membership test of the lower profile layer: o2_diff.index >= 2200. -/
def inProf2 (r : PRow) : Bool := decide (2200 ≤ r.1)

/-- Upper layer of the profile table. -/
def profLayer1 (rows : List PRow) : List PRow := rows.filter inProf1

/-- Lower layer of the profile table. -/
def profLayer2 (rows : List PRow) : List PRow := rows.filter inProf2

/-- Lower clamp s[s < 0] = 0 on rational score parts. -/
def clamp0 (q : ℚ) : ℚ := if q < 0 then 0 else q

/-- Upper-layer profile part: 10 - |mean bias| / 2, clamped below at 0. -/
def scr_prof_1 (rows : List PRow) : ℚ :=
  clamp0 (10 - |mean ((profLayer1 rows).map o2_diff)| / 2)

/-- Lower-layer profile part: 10 - |mean bias| / 2, clamped below at 0. -/
def scr_prof_2 (rows : List PRow) : ℚ :=
  clamp0 (10 - |mean ((profLayer2 rows).map o2_diff)| / 2)

/-- Profile-bias score: the rounded sum of the two layer parts. -/
def scr_prof (rows : List PRow) : ℤ := rhe (scr_prof_1 rows + scr_prof_2 rows)

/-- Gas-exchange score with literature std 5.2, rounded then clamped to
[0, 20] (first below, then above, as in the code). -/
def scr_gex (obs m : ℚ) : ℤ :=
  let r := rhe (20 - (|obs - m| - (26/5)/2) / (4 * (26/5)) * 20)
  if r < 0 then 0 else if 20 < r then 20 else r

/-- Total score of one model: scr = scr_corr + scr_max + scr_std + scr_prof
+ scr_gex, on that model's extracted data. -/
noncomputable def scr (w1a w1b w2a w2b : ℚ) (lswRows : List Row3)
    (botM botO : List ℚ) (profRows : List PRow) (gexObs gexM : ℚ) : ℤ :=
  scr_corr (lswRows.map modOf) (lswRows.map obsOf)
    + scr_max w1a w1b w2a w2b lswRows
    + scr_std botM botO
    + scr_prof profRows
    + scr_gex gexObs gexM

/-- One vertical level of the reduced (single-column) field at one time
step: its nominal depth lev, its bounding depths lev_bnds, and the o2
concentration there (none = NaN). -/
structure Lvl where
  lev : ℚ
  bnd0 : ℚ
  bnd1 : ℚ
  o2 : Option ℚ
deriving DecidableEq

/-- Layer thickness dz = np.diff(lev_bnds). -/
def dzOf (l : Lvl) : ℚ := l.bnd1 - l.bnd0

/-- One cell of o2_inv0 = o2 * dz (NaN propagates through the product). -/
def cellInv (l : Lvl) : Option ℚ := l.o2.map (fun c => c * dzOf l)

/-- NaN-propagating sum (numpy ndarray.sum): none if any entry is none. -/
def sumProp : List (Option ℚ) → Option ℚ
  | [] => some 0
  | x :: xs => x.bind (fun a => (sumProp xs).map (fun b => a + b))

/-- Membership test of the inventory upper layer: lev <= 2200. -/
def inUpper (l : Lvl) : Bool := decide (l.lev ≤ 2200)

/-- Membership test of the inventory lower layer: lev > 2200. -/
def inLower (l : Lvl) : Bool := decide (2200 < l.lev)

/-- Levels entering the LSW-layer inventory. -/
def upperLevs (ls : List Lvl) : List Lvl := ls.filter inUpper

/-- Levels entering the bottom-layer inventory. -/
def lowerLevs (ls : List Lvl) : List Lvl := ls.filter inLower

/-- LSW-layer inventory: o2_inv0[:, lev <= 2200].sum(axis=1), a plain sum
that propagates NaN. -/
def o2_inv (ls : List Lvl) : Option ℚ := sumProp ((upperLevs ls).map cellInv)

/-- Bottom-layer inventory: np.nansum(o2_inv0[:, lev > 2200], axis=1),
where NaN cells contribute zero. -/
def o2_inv_bot (ls : List Lvl) : ℚ :=
  ((lowerLevs ls).map (fun l => (cellInv l).getD 0)).sum

/-- Whole-column inventory (the comparison object of the layer-sum
property): the NaN-propagating sum over every level. -/
def o2_invTotal (ls : List Lvl) : Option ℚ := sumProp (ls.map cellInv)

/-- Replace a missing concentration by zero (used to state the nansum
policy of the lower layer). -/
def zfill (l : Lvl) : Lvl := { l with o2 := some (l.o2.getD 0) }

/-- Row of the merged multi-model LSW table: (Obs value, model cells); a
none cell is a NaN left by the bfill reindexing. -/
abbrev BRow := ℚ × List (Option ℚ)

/-- df.dropna(): keep only the rows where every model has a value. -/
def dropna (rows : List BRow) : List BRow :=
  rows.filter (fun r => r.2.all (fun c => c.isSome))

/-- Observation column of the batch table. -/
def obsColB (rows : List BRow) : List ℚ := rows.map (fun r => r.1)

/-- Column of model j of the batch table (junk 0 on a NaN cell; after
dropna no NaN cell remains). -/
def colJ (j : ℕ) (rows : List BRow) : List ℚ :=
  rows.map (fun r => (r.2.getD j none).getD 0)

/-- Append one more model column to the batch, its cell on each row given
by v. -/
def addCol (v : BRow → Option ℚ) (rows : List BRow) : List BRow :=
  rows.map (fun r => (r.1, r.2 ++ [v r]))

/-- Prepend one more model column to the batch. -/
def preCol (v : BRow → Option ℚ) (rows : List BRow) : List BRow :=
  rows.map (fun r => (r.1, v r :: r.2))

/-- Correlation score of model j inside a batch: the batch is jointly
stripped of NaN rows, mean-removed, and corrwith applied against Obs. -/
def batchCorrScore (rows : List BRow) (j : ℕ) : ℤ :=
  scr_corr (centered (colJ j (dropna rows))) (centered (obsColB (dropna rows)))

/-- First-occurrence argmin of |x - t| over a coordinate axis, returning
(position, coordinate): the nearest-neighbour lookup behind
sel(..., method='nearest'). -/
def argminAbs (t : ℚ) : List ℚ → Option (ℕ × ℚ)
  | [] => none
  | x :: xs =>
    match argminAbs t xs with
    | none => some (0, x)
    | some (j, v) => if |x - t| ≤ |v - t| then some (0, x) else some (j + 1, v)

/-- Coordinate of the selected nearest cell. -/
def selNearest (axis : List ℚ) (t : ℚ) : Option ℚ :=
  (argminAbs t axis).map (fun p => p.2)

/-- Position of the selected nearest cell. -/
def nearestIdx (axis : List ℚ) (t : ℚ) : Option ℕ :=
  (argminAbs t axis).map (fun p => p.1)

/-- Target longitude for the central Labrador Sea point: -52.22 when the
field's longitude axis tops out below 200, else -52.22 + 360. -/
def lonTarget (axis : List ℚ) : ℚ :=
  if listMax axis < 200 then -2611/50 else -2611/50 + 360

/-- The same physical longitudes re-expressed in the [-180, 180)
convention. -/
def toWest (x : ℚ) : ℚ := if x < 180 then x else x - 360

/-- Calendar year of a rational timestamp (integer part = year). -/
def yearOf (t : ℚ) : ℤ := ⌊t⌋

/-- Timestamp of the resample("Y") label for year y: Dec 31, i.e. 364/365
into the year. -/
def yearEnd (y : ℤ) : ℚ := (y : ℚ) + 364/365

/-- Ascending run of n consecutive years starting at y0. -/
def yearList (y0 : ℤ) : ℕ → List ℤ
  | 0 => []
  | n + 1 => y0 :: yearList (y0 + 1) n

/-- Minimum of a list of integers (junk 0 on empty). -/
def zmin : List ℤ → ℤ
  | [] => 0
  | x :: xs => xs.foldl min x

/-- Maximum of a list of integers (junk 0 on empty). -/
def zmax : List ℤ → ℤ
  | [] => 0
  | x :: xs => xs.foldl max x

/-- Mean of the samples of one calendar year (none on an empty year bin,
which pandas shows as a NaN row). -/
def yearBin (s : List (ℚ × ℚ)) (y : ℤ) : Option ℚ :=
  let g := (s.filter (fun p => decide (yearOf p.1 = y))).map (fun p => p.2)
  if g.isEmpty then none else some (mean g)

/-- resample("Y").mean(): one labelled bin per calendar year spanning the
series, empty bins included as NaN. -/
def resampleY (s : List (ℚ × ℚ)) : List (ℤ × Option ℚ) :=
  match s with
  | [] => []
  | _ :: _ =>
    let ys := s.map (fun p => yearOf p.1)
    (yearList (zmin ys) (zmax ys - zmin ys + 1).toNat).map (fun y => (y, yearBin s y))

/-- reindex(idx, method='bfill'): for each target timestamp take the value
at the first resample label at or after it (none when there is none). -/
def reindexBfill (res : List (ℤ × Option ℚ)) (idx : List ℚ) : List (ℚ × Option ℚ) :=
  idx.map (fun t =>
    (t, (res.find? (fun p => decide (t ≤ yearEnd p.1))).bind (fun p => p.2)))

/-- The TemporalAligner: annual resampling followed by backward-fill
reindexing onto the observational index (the df_mod_lsw pipeline). -/
def alignSeries (s : List (ℚ × ℚ)) (idx : List ℚ) : List (ℚ × Option ℚ) :=
  reindexBfill (resampleY s) idx

/-! ### Helper lemmas -/

theorem sumProp_eq_none (opts : List (Option ℚ)) (h : none ∈ opts) :
    sumProp opts = none := by
  induction opts with
  | nil => cases h
  | cons x xs ih =>
    rcases List.mem_cons.mp h with h1 | h1
    · rw [← h1]; simp [sumProp]
    · cases x <;> simp [sumProp, ih h1]

theorem sumProp_all_some (opts : List (Option ℚ)) (h : ∀ x ∈ opts, x.isSome) :
    sumProp opts = some ((opts.map (fun o => o.getD 0)).sum) := by
  induction opts with
  | nil => simp [sumProp]
  | cons x xs ih =>
    obtain ⟨a, rfl⟩ := Option.isSome_iff_exists.mp (h x (List.mem_cons_self x xs))
    simp [sumProp, ih (fun y hy => h y (List.mem_cons_of_mem _ hy))]

theorem sum_filter_not {α : Type} (p : α → Bool) (f : α → ℚ) (ls : List α) :
    ((ls.filter p).map f).sum + ((ls.filter (fun a => !p a)).map f).sum
      = (ls.map f).sum := by
  induction ls with
  | nil => simp
  | cons a ls ih =>
    cases hpa : p a
    · simp [List.filter_cons, hpa]
      linarith [ih]
    · simp [List.filter_cons, hpa]
      linarith [ih]

theorem inLower_eq_not_inUpper (l : Lvl) : inLower l = !inUpper l := by
  by_cases h2 : l.lev ≤ 2200
  · simp [inLower, inUpper, h2, not_lt.mpr h2]
  · simp [inLower, inUpper, h2, not_le.mp h2]

theorem inProf2_eq_not_inProf1 (r : PRow) : inProf2 r = !inProf1 r := by
  by_cases h2 : r.1 < 2200
  · simp [inProf1, inProf2, h2, not_le.mpr h2]
  · simp [inProf1, inProf2, h2, not_lt.mp h2]

theorem argminAbs_cons (t x : ℚ) (xs : List ℚ) :
    argminAbs t (x :: xs)
      = match argminAbs t xs with
        | none => some (0, x)
        | some (j, v) => if |x - t| ≤ |v - t| then some (0, x) else some (j + 1, v) := rfl

theorem argminAbs_spec (t : ℚ) (xs : List ℚ) (h : xs ≠ []) :
    ∃ j v, argminAbs t xs = some (j, v) ∧ v ∈ xs ∧ ∀ u ∈ xs, |v - t| ≤ |u - t| := by
  induction xs with
  | nil => exact absurd rfl h
  | cons x rest ih =>
    cases rest with
    | nil =>
      refine ⟨0, x, by simp [argminAbs], List.mem_singleton_self x, ?_⟩
      intro u hu
      rw [List.mem_singleton.mp hu]
    | cons y ys =>
      obtain ⟨j, v, hjv, hmem, hmin⟩ := ih (by simp)
      by_cases hx : |x - t| ≤ |v - t|
      · refine ⟨0, x, by rw [argminAbs_cons, hjv]; simp [hx], List.mem_cons_self x _, ?_⟩
        intro u hu
        rcases List.mem_cons.mp hu with rfl | hu
        · exact le_refl _
        · exact hx.trans (hmin u hu)
      · refine ⟨j + 1, v, by rw [argminAbs_cons, hjv]; simp [hx], List.mem_cons_of_mem _ hmem, ?_⟩
        intro u hu
        rcases List.mem_cons.mp hu with rfl | hu
        · exact le_of_not_le hx
        · exact hmin u hu

theorem o2_inv_bot_zfill (ls : List Lvl) : o2_inv_bot (ls.map zfill) = o2_inv_bot ls := by
  have hin : (fun l => inLower (zfill l)) = inLower := funext fun l => rfl
  unfold o2_inv_bot lowerLevs
  rw [List.filter_map zfill ls]
  show (((ls.filter (fun l => inLower (zfill l))).map zfill).map
      (fun l => (cellInv l).getD 0)).sum = _
  rw [hin, List.map_map]
  congr 1
  refine List.map_congr_left (fun l _ => ?_)
  cases ho : l.o2 <;> simp [Function.comp, cellInv, zfill, dzOf, ho]

/-! ### Claim theorems -/

/-- C1: the correlation component has no upper clamp in the code.  At the
aligned, missing-stripped anomaly pair m = o = [-1, 0, 1] (Pearson
correlation 1) it evaluates to round(20/0.81) = 25, outside the claimed
range [0, 20]. -/
theorem scr_corr_no_upper_clamp :
    scr_corr [-1, 0, 1] [-1, 0, 1] = 25 ∧ ¬ scr_corr [-1, 0, 1] [-1, 0, 1] ≤ 20 := by
  with_unfolding_all decide

/-- C5: on the axis [0, 1, 2] the target 100 lies strictly beyond the
coordinate bounds, yet the nearest-cell selection succeeds and returns the
edge cell 2; no failure occurs. -/
theorem selNearest_out_of_bounds :
    selNearest [0, 1, 2] 100 = some 2 ∧ listMax [0, 1, 2] < 100 := by
  with_unfolding_all decide

/-- C5 amended: on every nonempty coordinate axis the nearest-cell
selection never fails: it returns an axis coordinate at minimal distance
to the target, even when the target lies outside the axis bounds
(nearest-neighbour extrapolation); no GridError exists in the code. -/
theorem selNearest_never_fails (axis : List ℚ) (t : ℚ) (h : axis ≠ []) :
    ∃ v, selNearest axis t = some v ∧ v ∈ axis ∧ ∀ u ∈ axis, |v - t| ≤ |u - t| := by
  obtain ⟨j, v, hjv, hmem, hmin⟩ := argminAbs_spec t axis h
  exact ⟨v, by simp [selNearest, hjv], hmem, hmin⟩

/-- C5 witness: the nonemptiness hypothesis is satisfiable, at the axis
[0, 1, 2] with the out-of-bounds target 100. -/
theorem selNearest_never_fails_witness :
    ([0, 1, 2] : List ℚ) ≠ []
      ∧ ∃ v, selNearest [0, 1, 2] 100 = some v ∧ v ∈ ([0, 1, 2] : List ℚ)
          ∧ ∀ u ∈ ([0, 1, 2] : List ℚ), |v - 100| ≤ |u - 100| :=
  ⟨by simp, selNearest_never_fails [0, 1, 2] 100 (by simp)⟩

/-- C7: at any time step, if some level of the upper (lev <= 2200) layer
has a missing concentration, the LSW inventory is undefined (NaN), while
the lower-layer inventory is computed as if every missing concentration
were zero (nansum). -/
theorem o2_inv_missing_policy (ls : List Lvl)
    (h : ∃ l ∈ upperLevs ls, l.o2 = none) :
    o2_inv ls = none ∧ o2_inv_bot ls = o2_inv_bot (ls.map zfill) := by
  constructor
  · obtain ⟨l, hl, hnone⟩ := h
    have hcell : cellInv l = none := by simp [cellInv, hnone]
    have hm : (none : Option ℚ) ∈ (upperLevs ls).map cellInv := by
      rw [← hcell]; exact List.mem_map_of_mem cellInv hl
    exact sumProp_eq_none _ hm
  · exact (o2_inv_bot_zfill ls).symm

/-- C7 witness: a concrete reduced field with a missing upper-layer cell,

where the LSW inventory is NaN and the bottom inventory skips nothing. -/
theorem o2_inv_missing_policy_witness :
    (∃ l ∈ upperLevs [⟨1000, 0, 2000, none⟩, ⟨3000, 2000, 4000, some 1⟩], l.o2 = none)
      ∧ o2_inv [⟨1000, 0, 2000, none⟩, ⟨3000, 2000, 4000, some 1⟩] = none
      ∧ o2_inv_bot [⟨1000, 0, 2000, none⟩, ⟨3000, 2000, 4000, some 1⟩]
          = o2_inv_bot ([⟨1000, 0, 2000, none⟩, ⟨3000, 2000, 4000, some 1⟩].map zfill) :=
  ⟨by with_unfolding_all decide, o2_inv_missing_policy _ (by with_unfolding_all decide)⟩

/-- C8: the two layer splits disagree at the 2200 threshold: a level with
lev = 2200 enters the LSW (upper) inventory and not the bottom one, while
the profile row at depth 2200 enters profile layer 2 (the lower layer).
In particular the 2200 level is not assigned to the lower layer by both
computations, as claimed. -/
theorem threshold_2200_mismatch :
    upperLevs [⟨2200, 2100, 2300, some 1⟩] = [⟨2200, 2100, 2300, some 1⟩]
      ∧ lowerLevs [⟨2200, 2100, 2300, some 1⟩] = []
      ∧ o2_inv [⟨2200, 2100, 2300, some 1⟩] = some 200
      ∧ o2_inv_bot [⟨2200, 2100, 2300, some 1⟩] = 0
      ∧ profLayer1 [(2200, 1, 1)] = []
      ∧ profLayer2 [(2200, 1, 1)] = [(2200, 1, 1)] := by
  with_unfolding_all decide

/-- C8 amended: each of the two splits partitions the depth axis with no
gap and no overlap, but a depth exactly at 2200 is assigned to the upper
layer by the inventory split (lev <= 2200) and to the lower layer by the
profile-bias split (depth >= 2200). -/
theorem threshold_2200_partition :
    (∀ l : Lvl, inLower l = !inUpper l)
      ∧ (∀ ls : List Lvl, List.Perm (upperLevs ls ++ lowerLevs ls) ls)
      ∧ (∀ r : PRow, inProf2 r = !inProf1 r)
      ∧ (∀ rs : List PRow, List.Perm (profLayer1 rs ++ profLayer2 rs) rs)
      ∧ inUpper ⟨2200, 0, 0, none⟩ = true ∧ inLower ⟨2200, 0, 0, none⟩ = false
      ∧ inProf1 (2200, 0, 0) = false ∧ inProf2 (2200, 0, 0) = true := by
  refine ⟨inLower_eq_not_inUpper, ?_, inProf2_eq_not_inProf1, ?_,
    by with_unfolding_all decide, by with_unfolding_all decide,
    by with_unfolding_all decide, by with_unfolding_all decide⟩
  · intro ls
    unfold upperLevs lowerLevs
    rw [List.filter_congr (fun l _ => inLower_eq_not_inUpper l)]
    exact List.filter_append_perm inUpper ls
  · intro rs
    unfold profLayer1 profLayer2
    rw [List.filter_congr (fun r _ => inProf2_eq_not_inProf1 r)]
    exact List.filter_append_perm inProf1 rs

/-- C9: with no missing concentrations, the upper-layer and lower-layer
inventories add up exactly to the whole-column inventory. -/
theorem layer_inventories_sum (ls : List Lvl) (h : ∀ l ∈ ls, l.o2.isSome) :
    ∃ u w, o2_inv ls = some u ∧ o2_invTotal ls = some w ∧ u + o2_inv_bot ls = w := by
  have hcell : ∀ l ∈ ls, (cellInv l).isSome := by
    intro l hl
    have hs := h l hl
    cases ho : l.o2 with
    | none => rw [ho] at hs; cases hs
    | some a => simp [cellInv, ho]
  have hUp : ∀ x ∈ (upperLevs ls).map cellInv, x.isSome := by
    intro x hx
    obtain ⟨l, hl, rfl⟩ := List.mem_map.mp hx
    exact hcell l (List.mem_filter.mp hl).1
  have hAll : ∀ x ∈ ls.map cellInv, x.isSome := by
    intro x hx
    obtain ⟨l, hl, rfl⟩ := List.mem_map.mp hx
    exact hcell l hl
  refine ⟨_, _, sumProp_all_some _ hUp, sumProp_all_some _ hAll, ?_⟩
  rw [List.map_map, List.map_map]
  have hlow : o2_inv_bot ls
      = ((ls.filter (fun l => !inUpper l)).map (fun l => (cellInv l).getD 0)).sum := by
    unfold o2_inv_bot lowerLevs
    rw [List.filter_congr (fun l _ => inLower_eq_not_inUpper l)]
  rw [hlow]
  exact sum_filter_not inUpper (fun l => (cellInv l).getD 0) ls

/-- C9 witness: a concrete fully-defined reduced field, where the two
layer inventories (4000 and 6000) add up to the whole-column 10000. -/
theorem layer_inventories_sum_witness :
    (∀ l ∈ ([⟨1000, 0, 2000, some 2⟩, ⟨3000, 2000, 4000, some 3⟩] : List Lvl), l.o2.isSome)
      ∧ ∃ u w, o2_inv [⟨1000, 0, 2000, some 2⟩, ⟨3000, 2000, 4000, some 3⟩] = some u
          ∧ o2_invTotal [⟨1000, 0, 2000, some 2⟩, ⟨3000, 2000, 4000, some 3⟩] = some w
          ∧ u + o2_inv_bot [⟨1000, 0, 2000, some 2⟩, ⟨3000, 2000, 4000, some 3⟩] = w :=
  ⟨by with_unfolding_all decide, layer_inventories_sum _ (by with_unfolding_all decide)⟩

theorem rheR_intCast (n : ℤ) : rheR (n : ℝ) = n := by
  unfold rheR
  rw [Int.floor_intCast]
  norm_num

theorem scr_std_self (xs : List ℚ) (h : 0 < svar xs) : scr_std xs xs = 20 := by
  have h0 : (0 : ℝ) < ((svar xs : ℚ) : ℝ) := by exact_mod_cast h
  have hs : 0 < bot_std xs := by
    unfold bot_std
    exact Real.sqrt_pos.mpr h0
  unfold scr_std
  rw [if_neg (lt_irrefl _), div_self (ne_of_gt hs), mul_one]
  rw [show (20 : ℝ) = ((20 : ℤ) : ℝ) by norm_num, rheR_intCast]

theorem dropna_addCol (rows : List BRow) (v : BRow → Option ℚ)
    (hv : ∀ r ∈ rows, (v r).isSome) :
    dropna (addCol v rows) = addCol v (dropna rows) := by
  unfold dropna addCol
  rw [List.filter_map (fun r : BRow => (r.1, r.2 ++ [v r])) rows]
  congr 1
  refine List.filter_congr (fun r hr => ?_)
  show (r.2 ++ [v r]).all (fun c => c.isSome) = r.2.all (fun c => c.isSome)
  rw [List.all_append]
  simp [hv r hr]

theorem dropna_preCol (rows : List BRow) (v : BRow → Option ℚ)
    (hv : ∀ r ∈ rows, (v r).isSome) :
    dropna (preCol v rows) = preCol v (dropna rows) := by
  unfold dropna preCol
  rw [List.filter_map (fun r : BRow => (r.1, v r :: r.2)) rows]
  congr 1
  refine List.filter_congr (fun r hr => ?_)
  show (v r :: r.2).all (fun c => c.isSome) = r.2.all (fun c => c.isSome)
  simp [hv r hr]

/-- C2 (code bug): the total score is not bounded by 100: on model data
exactly equal to the observational data in all five components (with
nondegenerate series) the code yields 25 + 20 + 20 + 20 + 20 = 105,
because the correlation component is not clamped at 20. -/
theorem scr_total_exceeds_hundred :
    scr 0 0 2 2 [(0, 1, 1), (1, 0, 0), (2, -1, -1)] [3, 5] [3, 5]
        [(100, 7, 7), (2500, 8, 8)] 10 10 = 105 := by
  unfold scr
  rw [scr_std_self [3, 5] (by with_unfolding_all decide)]
  with_unfolding_all decide

/-- C3 (code bug): on a model whose series, profile and windows exactly
equal the observational reference (nondegenerate instance), the
extremum-ratio, variability-ratio and profile components are 20 each, but
the correlation component evaluates to 25 rather than the claimed 20. -/
theorem identical_model_components :
    scr_corr [2, 0, -2] [2, 0, -2] = 25
      ∧ scr_max 1990 1991 1992 1993
          [(3981/2, 2, 2), (3983/2, 0, 0), (3985/2, -2, -2)] = 20
      ∧ scr_std [0, 2] [0, 2] = 20
      ∧ scr_prof [(0, 5, 5), (2200, 6, 6)] = 20 :=
  ⟨by with_unfolding_all decide, by with_unfolding_all decide,
    scr_std_self [0, 2] (by with_unfolding_all decide), by with_unfolding_all decide⟩

/-- C4: a model's correlation score is not independent of the rest of the
batch: the batch is stripped of NaN rows jointly, so adding a second
model with one missing year changes the first model's correlation score
from 3 to 25 on the same data. -/
theorem batchCorrScore_not_batch_independent :
    batchCorrScore [(0, [some 0]), (1, [some 1]), (2, [some 2]), (10, [some 0])] 0 = 3
      ∧ batchCorrScore [(0, [some 0, some 5]), (1, [some 1, some 5]),
          (2, [some 2, some 5]), (10, [some 0, none])] 0 = 25
      ∧ (3 : ℤ) ≠ 25 := by
  with_unfolding_all decide

/-- C4 amended: a model's correlation score depends on the other models
only through the jointly stripped row set: appending or prepending a
model column that has a value on every row leaves the score of every
existing model column unchanged. -/
theorem batchCorrScore_defined_extension (rows : List BRow) (v : BRow → Option ℚ)
    (j : ℕ) (hv : ∀ r ∈ rows, (v r).isSome) (hj : ∀ r ∈ rows, j < r.2.length) :
    batchCorrScore (addCol v rows) j = batchCorrScore rows j
      ∧ batchCorrScore (preCol v rows) (j + 1) = batchCorrScore rows j := by
  constructor
  · unfold batchCorrScore
    rw [dropna_addCol rows v hv]
    have hobs : obsColB (addCol v (dropna rows)) = obsColB (dropna rows) := by
      unfold obsColB addCol
      rw [List.map_map]
      rfl
    have hcol : colJ j (addCol v (dropna rows)) = colJ j (dropna rows) := by
      unfold colJ addCol
      rw [List.map_map]
      refine List.map_congr_left (fun r hr => ?_)
      show ((r.2 ++ [v r]).getD j none).getD 0 = (r.2.getD j none).getD 0
      have hrj : j < r.2.length := hj r (List.mem_of_mem_filter hr)
      rw [List.getD_eq_getElem?_getD, List.getElem?_append_left hrj,
        ← List.getD_eq_getElem?_getD]
    rw [hobs, hcol]
  · unfold batchCorrScore
    rw [dropna_preCol rows v hv]
    have hobs : obsColB (preCol v (dropna rows)) = obsColB (dropna rows) := by
      unfold obsColB preCol
      rw [List.map_map]
      rfl
    have hcol : colJ (j + 1) (preCol v (dropna rows)) = colJ j (dropna rows) := by
      unfold colJ preCol
      rw [List.map_map]
      rfl
    rw [hobs, hcol]

/-- C4 witness: the hypotheses hold at a concrete two-row batch extended
by an everywhere-defined column, and the scores agree. -/
theorem batchCorrScore_defined_extension_witness :
    (∀ r ∈ ([(1, [some 2]), (2, [some 3])] : List BRow), ((fun x : BRow => some x.1) r).isSome)
      ∧ (∀ r ∈ ([(1, [some 2]), (2, [some 3])] : List BRow), 0 < r.2.length)
      ∧ (batchCorrScore (addCol (fun x : BRow => some x.1) [(1, [some 2]), (2, [some 3])]) 0
            = batchCorrScore [(1, [some 2]), (2, [some 3])] 0
          ∧ batchCorrScore (preCol (fun x : BRow => some x.1) [(1, [some 2]), (2, [some 3])]) 1
            = batchCorrScore [(1, [some 2]), (2, [some 3])] 0) :=
  ⟨by with_unfolding_all decide, by with_unfolding_all decide,
    batchCorrScore_defined_extension _ _ 0 (by with_unfolding_all decide)
      (by with_unfolding_all decide)⟩

theorem argminAbs_cons_some (t x : ℚ) (xs : List ℚ) (j : ℕ) (v : ℚ)
    (h : argminAbs t xs = some (j, v)) :
    argminAbs t (x :: xs)
      = if |x - t| ≤ |v - t| then some (0, x) else some (j + 1, v) := by
  rw [argminAbs_cons, h]

theorem foldl_max_lt (c : ℚ) (l : List ℚ) : ∀ a : ℚ, a < c → (∀ y ∈ l, y < c) →
    l.foldl max a < c := by
  induction l with
  | nil => intro a ha _; exact ha
  | cons y ys ih =>
    intro a ha hy
    simp only [List.foldl_cons]
    exact ih (max a y) (max_lt ha (hy y (List.mem_cons_self y ys)))
      (fun z hz => hy z (List.mem_cons_of_mem _ hz))

theorem listMax_lt (l : List ℚ) (c : ℚ) (hc : 0 < c) (h : ∀ y ∈ l, y < c) :
    listMax l < c := by
  cases l with
  | nil => simpa [listMax] using hc
  | cons x xs =>
    exact foldl_max_lt c xs x (h x (List.mem_cons_self x xs))
      (fun z hz => h z (List.mem_cons_of_mem _ hz))

theorem toWest_dist_far (z : ℚ) (h2 : 180 ≤ z) :
    |toWest z - (-2611/50)| = |z - 15389/50| := by
  unfold toWest
  rw [if_neg (not_lt.mpr h2)]
  congr 1
  ring

theorem toWest_dist_near (z : ℚ) (h0 : 0 ≤ z) (h1 : z < 180) :
    |toWest z - (-2611/50)| = z + 2611/50 := by
  unfold toWest
  rw [if_pos h1, show z - (-2611/50) = z + 2611/50 by ring]
  exact abs_of_nonneg (by linarith)

theorem dist_a_far (z : ℚ) (h1 : z < 180) : 6389/50 < |z - 15389/50| := by
  rw [abs_of_nonpos (by linarith)]
  linarith

theorem argminAbs_west (axis : List ℚ)
    (hmem : ∀ x ∈ axis, 0 ≤ x ∧ x < 360)
    (hwit : ∃ b ∈ axis, 180 ≤ b ∧ |b - 15389/50| < 2611/50) :
    argminAbs (-2611/50) (axis.map toWest)
      = (argminAbs (15389/50) axis).map (fun p => (p.1, toWest p.2)) := by
  induction axis with
  | nil => simp at hwit
  | cons x rest ih =>
    by_cases hw : ∃ b ∈ rest, 180 ≤ b ∧ |b - 15389/50| < 2611/50
    · -- the near eastern cell is in the tail
      have hrest := ih (fun z hz => hmem z (List.mem_cons_of_mem _ hz)) hw
      obtain ⟨b, hb, hb180, hbd⟩ := hw
      have hrne : rest ≠ [] := by intro h; rw [h] at hb; cases hb
      obtain ⟨j, v, hjv, hvmem, hvmin⟩ := argminAbs_spec (15389/50) rest hrne
      have hvd : |v - 15389/50| < 2611/50 := lt_of_le_of_lt (hvmin b hb) hbd
      have hv180 : 180 ≤ v := by
        by_contra hlt
        push_neg at hlt
        have := dist_a_far v hlt
        linarith
      have hjv2 : argminAbs (-2611/50) (rest.map toWest) = some (j, toWest v) := by
        rw [hrest, hjv]; rfl
      have hxm := hmem x (List.mem_cons_self x rest)
      have hvB : |toWest v - (-2611/50)| = |v - 15389/50| := toWest_dist_far v hv180
      rw [List.map_cons, argminAbs_cons_some _ _ _ _ _ hjv2,
        argminAbs_cons_some _ _ _ _ _ hjv]
      by_cases hx180 : 180 ≤ x
      · have hxB : |toWest x - (-2611/50)| = |x - 15389/50| := toWest_dist_far x hx180
        rw [hxB, hvB]
        by_cases hcmp : |x - 15389/50| ≤ |v - 15389/50|
        · rw [if_pos hcmp, if_pos hcmp]; rfl
        · rw [if_neg hcmp, if_neg hcmp]; rfl
      · push_neg at hx180
        have hxB : |toWest x - (-2611/50)| = x + 2611/50 :=
          toWest_dist_near x hxm.1 hx180
        have hxA : 6389/50 < |x - 15389/50| := dist_a_far x hx180
        have hc1 : ¬ |x - 15389/50| ≤ |v - 15389/50| := not_le.mpr (by linarith)
        have hc2 : ¬ |toWest x - (-2611/50)| ≤ |toWest v - (-2611/50)| := by
          rw [hxB, hvB]
          exact not_le.mpr (by linarith [hxm.1])
        rw [if_neg hc2, if_neg hc1]; rfl
    · -- the near eastern cell is the head itself
      obtain ⟨b, hbmem, hb180, hbd⟩ := hwit
      rcases List.mem_cons.mp hbmem with rfl | hbr
      · have hxB : |toWest b - (-2611/50)| = |b - 15389/50| := toWest_dist_far b hb180
        by_cases hrne : rest = []
        · subst hrne
          rfl
        · obtain ⟨j, v, hjv, hvmem, hvmin⟩ := argminAbs_spec (15389/50) rest hrne
          have hvfar : |b - 15389/50| < |v - 15389/50| := by
            by_cases hv180 : 180 ≤ v
            · by_contra hle
              push_neg at hle
              exact hw ⟨v, hvmem, hv180, lt_of_le_of_lt hle hbd⟩
            · push_neg at hv180
              have := dist_a_far v hv180
              linarith
          have hWfar : ∀ u ∈ rest.map toWest, |b - 15389/50| < |u - (-2611/50)| := by
            intro u hu
            obtain ⟨z, hz, rfl⟩ := List.mem_map.mp hu
            have hzm := hmem z (List.mem_cons_of_mem _ hz)
            by_cases hz180 : 180 ≤ z
            · rw [toWest_dist_far z hz180]
              by_contra hle
              push_neg at hle
              exact hw ⟨z, hz, hz180, lt_of_le_of_lt hle hbd⟩
            · push_neg at hz180
              rw [toWest_dist_near z hzm.1 hz180]
              linarith [hzm.1]
          obtain ⟨j2, v2, hjv2, hvmem2, hvmin2⟩ :=
            argminAbs_spec (-2611/50) (rest.map toWest)
              (fun hnil => hrne (List.map_eq_nil_iff.mp hnil))
          have hv2far : |b - 15389/50| < |v2 - (-2611/50)| := hWfar v2 hvmem2
          rw [List.map_cons, argminAbs_cons_some _ _ _ _ _ hjv2,
            argminAbs_cons_some _ _ _ _ _ hjv]
          rw [hxB]
          rw [if_pos (le_of_lt hv2far), if_pos (le_of_lt hvfar)]
          rfl
      · exact absurd ⟨b, hbr, hb180, hbd⟩ hw

/-- C6: the two longitude conventions can select different physical cells:
on the sparse axis [0, 100, 250] (max at least 200, so target 307.78) the
nearest cell is position 2 (lon 250), while on the equivalent western axis
[0, 100, -110] (max below 200, so target -52.22) the nearest cell is
position 0 (lon 0): the same-physical-cell property fails, because the
linear nearest-neighbour distance does not wrap around the globe. -/
theorem lon_convention_mismatch :
    lonTarget [0, 100, 250] = 15389/50
      ∧ lonTarget (List.map toWest [0, 100, 250]) = -2611/50
      ∧ nearestIdx [0, 100, 250] (lonTarget [0, 100, 250]) = some 2
      ∧ nearestIdx (List.map toWest [0, 100, 250])
          (lonTarget (List.map toWest [0, 100, 250])) = some 0 := by
  have hmapW : List.map toWest [0, 100, 250] = ([0, 100, -110] : List ℚ) := by
    norm_num [toWest]
  have e1 : max (0 : ℚ) 100 = 100 := max_eq_right (by norm_num)
  have e2 : max (100 : ℚ) 250 = 250 := max_eq_right (by norm_num)
  have e3 : max (100 : ℚ) (-110) = 100 := max_eq_left (by norm_num)
  have hlm1 : listMax [0, 100, 250] = 250 := by
    show max (max (0 : ℚ) 100) 250 = 250
    rw [e1, e2]
  have hlm2 : listMax ([0, 100, -110] : List ℚ) = 100 := by
    show max (max (0 : ℚ) 100) (-110) = 100
    rw [e1, e3]
  have ht1 : lonTarget [0, 100, 250] = 15389/50 := by
    unfold lonTarget
    rw [hlm1, if_neg (by norm_num)]
    norm_num
  have ht2 : lonTarget ([0, 100, -110] : List ℚ) = -2611/50 := by
    unfold lonTarget
    rw [hlm2, if_pos (by norm_num)]
  have ha1 : argminAbs (15389/50) [(250 : ℚ)] = some (0, 250) := rfl
  have hc1 : ¬ |(100 : ℚ) - 15389/50| ≤ |(250 : ℚ) - 15389/50| := by
    rw [abs_of_nonpos (by norm_num : (100 : ℚ) - 15389/50 ≤ 0),
      abs_of_nonpos (by norm_num : (250 : ℚ) - 15389/50 ≤ 0)]
    norm_num
  have ha2 : argminAbs (15389/50) [100, 250] = some (1, 250) := by
    rw [argminAbs_cons_some _ _ _ _ _ ha1, if_neg hc1]
  have hc2 : ¬ |(0 : ℚ) - 15389/50| ≤ |(250 : ℚ) - 15389/50| := by
    rw [abs_of_nonpos (by norm_num : (0 : ℚ) - 15389/50 ≤ 0),
      abs_of_nonpos (by norm_num : (250 : ℚ) - 15389/50 ≤ 0)]
    norm_num
  have ha3 : argminAbs (15389/50) [0, 100, 250] = some (2, 250) := by
    rw [argminAbs_cons_some _ _ _ _ _ ha2, if_neg hc2]
  have hb1 : argminAbs (-2611/50) [(-110 : ℚ)] = some (0, -110) := rfl
  have hd1 : ¬ |(100 : ℚ) - -2611/50| ≤ |(-110 : ℚ) - -2611/50| := by
    rw [abs_of_nonneg (by norm_num : (0 : ℚ) ≤ 100 - -2611/50),
      abs_of_nonpos (by norm_num : (-110 : ℚ) - -2611/50 ≤ 0)]
    norm_num
  have hb2 : argminAbs (-2611/50) [100, -110] = some (1, -110) := by
    rw [argminAbs_cons_some _ _ _ _ _ hb1, if_neg hd1]
  have hd2 : |(0 : ℚ) - -2611/50| ≤ |(-110 : ℚ) - -2611/50| := by
    rw [abs_of_nonneg (by norm_num : (0 : ℚ) ≤ 0 - -2611/50),
      abs_of_nonpos (by norm_num : (-110 : ℚ) - -2611/50 ≤ 0)]
    norm_num
  have hb3 : argminAbs (-2611/50) ([0, 100, -110] : List ℚ) = some (0, 0) := by
    rw [argminAbs_cons_some _ _ _ _ _ hb2, if_pos hd2]
  refine ⟨ht1, by rw [hmapW]; exact ht2, ?_, ?_⟩
  · rw [ht1]
    unfold nearestIdx
    rw [ha3]
    rfl
  · rw [hmapW, ht2]
    unfold nearestIdx
    rw [hb3]
    rfl

/-- C6 amended: the convention rule is as coded (target -52.22 when the
axis max is below 200, else 307.78 = -52.22 + 360), and the [0, 360) and
[-180, 180) representations select the same cell position whenever some
cell of [180, 360) lies within 52.22 degrees of the eastern target
307.78 (as on any grid with global longitude coverage); on sparser grids
the two selections can differ. -/
theorem lon_convention_same_cell (axis : List ℚ)
    (hmem : ∀ x ∈ axis, 0 ≤ x ∧ x < 360)
    (hmax : 200 ≤ listMax axis)
    (hwit : ∃ b ∈ axis, 180 ≤ b ∧ |b - 15389/50| < 2611/50) :
    lonTarget axis = 15389/50
      ∧ lonTarget (axis.map toWest) = -2611/50
      ∧ nearestIdx (axis.map toWest) (lonTarget (axis.map toWest))
          = nearestIdx axis (lonTarget axis) := by
  have h1 : lonTarget axis = 15389/50 := by
    unfold lonTarget
    rw [if_neg (not_lt.mpr hmax)]
    norm_num
  have h2 : lonTarget (axis.map toWest) = -2611/50 := by
    unfold lonTarget
    rw [if_pos]
    refine listMax_lt _ 200 (by norm_num) ?_
    intro y hy
    obtain ⟨z, hz, rfl⟩ := List.mem_map.mp hy
    have hzm := hmem z hz
    unfold toWest
    by_cases h180 : z < 180
    · rw [if_pos h180]; linarith
    · rw [if_neg h180]; linarith [hzm.2]
  refine ⟨h1, h2, ?_⟩
  rw [h1, h2]
  unfold nearestIdx
  rw [argminAbs_west axis hmem hwit]
  cases argminAbs (15389/50) axis <;> rfl

/-- C6 witness: the hypotheses hold at the axis [0, 100, 280], whose cell
280 lies within 52.22 degrees of 307.78. -/
theorem lon_convention_same_cell_witness :
    (∀ x ∈ ([0, 100, 280] : List ℚ), 0 ≤ x ∧ x < 360)
      ∧ 200 ≤ listMax [0, 100, 280]
      ∧ (∃ b ∈ ([0, 100, 280] : List ℚ), 180 ≤ b ∧ |b - 15389/50| < 2611/50)
      ∧ (lonTarget [0, 100, 280] = 15389/50
          ∧ lonTarget (List.map toWest [0, 100, 280]) = -2611/50
          ∧ nearestIdx (List.map toWest [0, 100, 280])
              (lonTarget (List.map toWest [0, 100, 280]))
              = nearestIdx [0, 100, 280] (lonTarget [0, 100, 280])) :=
  ⟨by with_unfolding_all decide, by with_unfolding_all decide,
    by with_unfolding_all decide,
    lon_convention_same_cell _ (by with_unfolding_all decide)
      (by with_unfolding_all decide) (by with_unfolding_all decide)⟩

theorem foldl_min_le_init (l : List ℤ) : ∀ a : ℤ, l.foldl min a ≤ a := by
  induction l with
  | nil => intro a; exact le_refl a
  | cons y ys ih =>
    intro a
    simp only [List.foldl_cons]
    exact le_trans (ih (min a y)) (min_le_left a y)

theorem foldl_min_le_mem (l : List ℤ) : ∀ a : ℤ, ∀ x ∈ l, l.foldl min a ≤ x := by
  induction l with
  | nil => intro a x hx; cases hx
  | cons y ys ih =>
    intro a x hx
    simp only [List.foldl_cons]
    rcases List.mem_cons.mp hx with rfl | hx
    · exact le_trans (foldl_min_le_init ys (min a x)) (min_le_right a x)
    · exact ih (min a y) x hx

theorem zmin_le (l : List ℤ) (x : ℤ) (h : x ∈ l) : zmin l ≤ x := by
  cases l with
  | nil => cases h
  | cons y ys =>
    rcases List.mem_cons.mp h with rfl | h
    · exact foldl_min_le_init ys x
    · exact foldl_min_le_mem ys y x h

theorem le_foldl_max_init (l : List ℤ) : ∀ a : ℤ, a ≤ l.foldl max a := by
  induction l with
  | nil => intro a; exact le_refl a
  | cons y ys ih =>
    intro a
    simp only [List.foldl_cons]
    exact le_trans (le_max_left a y) (ih (max a y))

theorem le_foldl_max_mem (l : List ℤ) : ∀ a : ℤ, ∀ x ∈ l, x ≤ l.foldl max a := by
  induction l with
  | nil => intro a x hx; cases hx
  | cons y ys ih =>
    intro a x hx
    simp only [List.foldl_cons]
    rcases List.mem_cons.mp hx with rfl | hx
    · exact le_trans (le_max_right a x) (le_foldl_max_init ys (max a x))
    · exact ih (max a y) x hx

theorem le_zmax (l : List ℤ) (x : ℤ) (h : x ∈ l) : x ≤ zmax l := by
  cases l with
  | nil => cases h
  | cons y ys =>
    rcases List.mem_cons.mp h with rfl | h
    · exact le_foldl_max_init ys x
    · exact le_foldl_max_mem ys y x h

theorem find_yearList (B : ℤ → Option ℚ) (t : ℚ) (Y : ℤ)
    (hfr : t ≤ yearEnd Y) (hfl : Y ≤ ⌊t⌋) :
    ∀ (n : ℕ) (y0 : ℤ), y0 ≤ Y → Y < y0 + n →
      ((yearList y0 n).map (fun y => (y, B y))).find?
          (fun p => decide (t ≤ yearEnd p.1)) = some (Y, B Y) := by
  intro n
  induction n with
  | zero =>
    intro y0 h1 h2
    omega
  | succ n ih =>
    intro y0 h1 h2
    simp only [yearList, List.map_cons]
    by_cases hy : y0 = Y
    · subst hy
      exact List.find?_cons_of_pos _ (decide_eq_true hfr)
    · have hlt : y0 < Y := lt_of_le_of_ne h1 hy
      have hneg : ¬ (t ≤ yearEnd y0) := by
        intro hle
        have hq : t < ((y0 + 1 : ℤ) : ℚ) := by
          refine lt_of_le_of_lt hle ?_
          unfold yearEnd
          push_cast
          norm_num
        have hf : ⌊t⌋ < y0 + 1 := Int.floor_lt.mpr hq
        omega
      rw [List.find?_cons_of_neg _ (by simpa using hneg)]
      exact ih (y0 + 1) (by omega) (by omega)

theorem filter_year_unique (s : List (ℚ × ℚ))
    (hs : List.Pairwise (fun p q => yearOf p.1 < yearOf q.1) s) :
    ∀ p ∈ s, s.filter (fun q => decide (yearOf q.1 = yearOf p.1)) = [p] := by
  induction s with
  | nil => intro p hp; cases hp
  | cons a rest ih =>
    intro p hp
    have hpw := List.pairwise_cons.mp hs
    rcases List.mem_cons.mp hp with rfl | hpr
    · rw [List.filter_cons_of_pos (by simp)]
      rw [List.filter_eq_nil_iff.mpr]
      intro q hq
      have hlt := hpw.1 q hq
      simp only [decide_eq_true_eq]
      omega
    · have hlt := hpw.1 p hpr
      rw [List.filter_cons_of_neg (by simp only [decide_eq_true_eq]; omega)]
      exact ih hpw.2 p hpr

theorem resampleY_ne_nil (s : List (ℚ × ℚ)) (h : s ≠ []) :
    resampleY s
      = (yearList (zmin (s.map (fun p => yearOf p.1)))
          (zmax (s.map (fun p => yearOf p.1))
            - zmin (s.map (fun p => yearOf p.1)) + 1).toNat).map
          (fun y => (y, yearBin s y)) := by
  cases s with
  | nil => exact absurd rfl h
  | cons a rest => rfl

/-- C10: the TemporalAligner is idempotent: a series with (at most) one
sample per calendar year, each sample dated at or before its resample
label (as the mid-year-dated observational index is), resampled to annual
means and backward-fill reindexed onto its own time index, comes back
unchanged. -/
theorem align_idempotent (s : List (ℚ × ℚ))
    (hann : List.Pairwise (fun p q => yearOf p.1 < yearOf q.1) s)
    (hmid : ∀ p ∈ s, p.1 ≤ yearEnd (yearOf p.1)) :
    alignSeries s (s.map (fun p => p.1)) = s.map (fun p => (p.1, some p.2)) := by
  by_cases hnil : s = []
  · subst hnil; rfl
  · unfold alignSeries reindexBfill
    rw [List.map_map]
    refine List.map_congr_left (fun p hp => ?_)
    show (p.1, ((resampleY s).find? (fun q => decide (p.1 ≤ yearEnd q.1))).bind
        (fun q => q.2)) = (p.1, some p.2)
    have hY : yearOf p.1 ∈ s.map (fun p => yearOf p.1) :=
      List.mem_map_of_mem (fun p => yearOf p.1) hp
    have h1 : zmin (s.map (fun p => yearOf p.1)) ≤ yearOf p.1 := zmin_le _ _ hY
    have h2 : yearOf p.1 ≤ zmax (s.map (fun p => yearOf p.1)) := le_zmax _ _ hY
    have hn : yearOf p.1 < zmin (s.map (fun p => yearOf p.1))
        + ((zmax (s.map (fun p => yearOf p.1))
            - zmin (s.map (fun p => yearOf p.1)) + 1).toNat : ℤ) := by
      rw [Int.toNat_of_nonneg (by omega)]
      omega
    have hfind := find_yearList (yearBin s) p.1 (yearOf p.1) (hmid p hp)
      (le_refl _) _ (zmin (s.map (fun p => yearOf p.1))) h1 hn
    rw [resampleY_ne_nil s hnil, hfind]
    show (p.1, yearBin s (yearOf p.1)) = (p.1, some p.2)
    unfold yearBin
    rw [filter_year_unique s hann p hp]
    simp [mean]

/-- C10 witness: a concrete two-year annual series on its own index, where
alignment returns it unchanged. -/
theorem align_idempotent_witness :
    List.Pairwise (fun p q : ℚ × ℚ => yearOf p.1 < yearOf q.1) [(1/2, 3), (3/2, 4)]
      ∧ (∀ p ∈ ([(1/2, 3), (3/2, 4)] : List (ℚ × ℚ)), p.1 ≤ yearEnd (yearOf p.1))
      ∧ alignSeries [(1/2, 3), (3/2, 4)]
          (List.map (fun p => p.1) [((1 : ℚ)/2, (3 : ℚ)), (3/2, 4)])
          = List.map (fun p : ℚ × ℚ => (p.1, some p.2)) [(1/2, 3), (3/2, 4)] :=
  ⟨by with_unfolding_all decide, by with_unfolding_all decide,
    align_idempotent _ (by with_unfolding_all decide) (by with_unfolding_all decide)⟩

end LabSea
